import Mathlib

/-!
Verification development for the transmut live-tree translation engine
(TranslationObserver, src/observer.ts and src/observer/*.ts).

Strings from the host language are modelled as lists of characters
(abbreviated Str).  JS string primitives used by the source are embedded
explicitly: slice, trim, toLowerCase, the first-occurrence replace used by
the reconstruction step, and the two regular expressions of the dynamic
content normalizer (the fixed number pattern and the default variable
pattern), embedded as executable scanners with the exec/lastIndex loop of
the source.  Host facilities (IndexedDB, the DOM tree, the CSS selector
engine, JSON.parse, navigator.onLine, the external lookup function) are
parameters of the embedded functions, mirroring the interface boundary of
the spec.
-/

namespace Transmut

/-- Character strings of the host language, as lists of characters. -/
abbrev Str := List Char

/-- JS whitespace class (ASCII part), used by trim and the \s class. -/
def isSpaceChar (c : Char) : Bool :=
  c = ' ' || c = '\t' || c = '\n' || c = '\r' || c = '\x0b' || c = '\x0c'

/-- JS word character class \w = [A-Za-z0-9_], used for \b boundaries. -/
def isWordChar (c : Char) : Bool :=
  c.isAlphanum || c = '_'

/-- Characters admitted by the sanitizer class [a-zA-Z0-9_-]. -/
def isNameChar (c : Char) : Bool :=
  c.isAlphanum || c = '_' || c = '-'

/-- JS String.prototype.trim. -/
def trimStr (s : Str) : Str :=
  ((s.dropWhile isSpaceChar).reverse.dropWhile isSpaceChar).reverse

/-- JS String.prototype.toLowerCase on the ASCII range. -/
def toLowerStr (s : Str) : Str :=
  s.map Char.toLower

/-- JS String.prototype.toUpperCase on the ASCII range. -/
def toUpperStr (s : Str) : Str :=
  s.map Char.toUpper

/-- JS text.slice(i, j) for nonnegative indices. -/
def sliceL (s : Str) (i j : Nat) : Str :=
  (s.drop i).take (j - i)

/-- JS text.slice(i) for a nonnegative index. -/
def sliceFrom (s : Str) (i : Nat) : Str :=
  s.drop i

/-- The backquote character, written by code point to keep the source
free of the literal character. -/
def backquoteChar : Char := Char.ofNat 96

/-- The single-quote character, written by code point likewise. -/
def singleQuoteChar : Char := Char.ofNat 39

/-- GetSubstitution of the JS specification as it applies to a plain
string search pattern (no capture groups): in the replacement string a
dollar followed by a dollar yields one dollar, dollar-ampersand yields the
matched text, dollar-backquote the text before the match, dollar-quote the
text after the match; a dollar followed by anything else (including digits
and angle brackets, since there are no captures) is literal, as is a
trailing dollar. -/
def getSubstitution (matched before after : Str) : Str → Str
  | [] => []
  | c :: rest =>
    if c = '$' then
      match rest with
      | [] => ['$']
      | d :: rest2 =>
        if d = '$' then '$' :: getSubstitution matched before after rest2
        else if d = '&' then matched ++ getSubstitution matched before after rest2
        else if d = backquoteChar then before ++ getSubstitution matched before after rest2
        else if d = singleQuoteChar then after ++ getSubstitution matched before after rest2
        else '$' :: getSubstitution matched before after (d :: rest2)
    else c :: getSubstitution matched before after rest

/-- Whether a string contains a dollar escape pair recognized by
GetSubstitution for a string pattern: dollar-dollar, dollar-ampersand,
dollar-backquote or dollar-quote. -/
def hasDollarEscape : Str → Bool
  | [] => false
  | [_] => false
  | a :: b :: rest =>
    (a = '$' && (b = '$' || b = '&' || b = backquoteChar || b = singleQuoteChar)) ||
      hasDollarEscape (b :: rest)

/-- JS String.prototype.indexOf for a string search: the first position at
or after i where the pattern is a prefix of the remaining text. -/
def findSubIdx (pat : Str) : Str → Nat → Option Nat
  | [], i => if pat.isPrefixOf ([] : Str) then some i else none
  | c :: t, i =>
    if pat.isPrefixOf (c :: t) then some i else findSubIdx pat t (i + 1)

/-- JS result.replace(pattern, replacement) for a plain string pattern:
the pattern is located with indexOf, only the first occurrence is
replaced, and the replacement string goes through GetSubstitution with the
pattern itself as matched text. -/
def replaceFirst (s pat r : Str) : Str :=
  match findSubIdx pat s 0 with
  | none => s
  | some pos =>
    let before := s.take pos
    let after := s.drop (pos + pat.length)
    before ++ getSubstitution pat before after r ++ after

/-- Whether the two-character placeholder token appears as a substring. -/
def hasBrace : Str → Bool
  | [] => false
  | [_] => false
  | a :: b :: rest => (a = '{' && b = '}') || hasBrace (b :: rest)

/-- Run-collapsing worker: the flag records whether the previous character
belonged to the current run. -/
def collapseRunAux (p : Char → Bool) (r : Char) : Bool → Str → Str
  | _, [] => []
  | inRun, c :: rest =>
    if p c then
      if inRun then collapseRunAux p r true rest
      else r :: collapseRunAux p r true rest
    else c :: collapseRunAux p r false rest

/-- Replaces each maximal run of characters satisfying p by the single
character r (the form of the regex replacements in the sanitizer). -/
def collapseRun (p : Char → Bool) (r : Char) (s : Str) : Str :=
  collapseRunAux p r false s

/-- Drops trailing characters satisfying p. -/
def dropTrailing (p : Char → Bool) (s : Str) : Str :=
  (s.reverse.dropWhile p).reverse

/-- Index of the first character at position j or later satisfying p, given
the suffix of the text starting at position j. -/
def findCharFrom (p : Char → Bool) : Str → Nat → Option Nat
  | [], _ => none
  | c :: rest, j => if p c then some j else findCharFrom p rest (j + 1)

/-- Deduplication worker; the fuel bounds the recursion depth and the
input length never exceeds it, since each step removes the head and
filtering only shortens the tail. -/
def jsSetDedupAux : Nat → List Str → List Str
  | 0, l => l
  | _ + 1, [] => []
  | fuel + 1, x :: xs => x :: jsSetDedupAux fuel (xs.filter (fun y => y ≠ x))

/-- Array.from(new Set(keys)): deduplication keeping first occurrences. -/
def jsSetDedup (l : List Str) : List Str :=
  jsSetDedupAux l.length l

/-! ## Dynamic-Content Normalizer (observer.ts #normalizeText and helpers,
identical logic in src/observer/dynamic-content.ts DynamicContentHelper) -/

/-- Tag of a dynamic fragment, the type field of the source tagged union. -/
inductive FragKind
  | variableK
  | numberK
deriving DecidableEq, Repr

/-- DynamicFragment: tagged union Variable(raw, name?) or Number(raw). -/
inductive DynamicFragment
  | variableFragment (raw : Str) (name : Option Str)
  | numberFragment (raw : Str)
deriving DecidableEq, Repr

/-- fragment.type equals variable. -/
def isVariableFragment : DynamicFragment → Bool
  | .variableFragment _ _ => true
  | .numberFragment _ => false

/-- fragment.type equals number. -/
def isNumberFragment : DynamicFragment → Bool
  | .variableFragment _ _ => false
  | .numberFragment _ => true

/-- A DynamicFragmentMatch of the source: kind, matched raw text, optional
sanitized variable name, start offset and end offset.  The source field
named end is called stop here because end is a reserved word. -/
structure DynamicFragmentMatch where
  kind : FragKind
  raw : Str
  name : Option Str := none
  start : Nat
  stop : Nat
deriving DecidableEq, Repr

/-- Converts a match into its fragment as in #normalizeText. -/
def toFragment (m : DynamicFragmentMatch) : DynamicFragment :=
  match m.kind with
  | .variableK => .variableFragment m.raw m.name
  | .numberK => .numberFragment m.raw

/-- #sanitizeVariableName: trim; empty gives none; whitespace runs become a
hyphen, runs of characters outside [a-zA-Z0-9_-] become a hyphen, hyphen
runs collapse, leading and trailing hyphens are stripped; an empty result
gives none, otherwise the lowercased name. -/
def sanitizeVariableName : Option Str → Option Str
  | none => none
  | some s =>
    let trimmed := trimStr s
    if trimmed = [] then none
    else
      let s1 := collapseRun isSpaceChar '-' trimmed
      let s2 := collapseRun (fun c => !isNameChar c) '-' s1
      let s3 := collapseRun (fun c => c = '-') '-' s2
      let s4 := dropTrailing (fun c => c = '-') (s3.dropWhile (fun c => c = '-'))
      if s4 = [] then none else some (toLowerStr s4)

/-- Match of the default variable pattern at exactly position p, returning
the match length.  The default pattern requires a dollar and open brace,
then lazily captures at least one non-close-brace character up to the first
close brace after at least one intervening character; the match therefore
spans from p through the first close brace at index q with p + 2 < q + 1,
and fails when the close brace comes immediately or never. -/
def matchVarAt (text : Str) (p : Nat) : Option Nat :=
  if text.get? p = some '$' && text.get? (p + 1) = some '{' then
    match findCharFrom (fun c => c = '}') (text.drop (p + 2)) (p + 2) with
    | some q => if p + 2 < q then some (q + 1 - p) else none
    | none => none
  else none

/-- Length of the run of ASCII digits starting at position j. -/
def digitRunLen (text : Str) (j : Nat) : Nat :=
  ((text.drop j).takeWhile Char.isDigit).length

/-- Word-boundary test of the number pattern at offset e: the end of the
text or a non-word character. -/
def boundaryAt (text : Str) (e : Nat) : Bool :=
  match text.get? e with
  | none => true
  | some c => !isWordChar c

/-- Match of the fixed number pattern (word boundary, digits, optional dot
and digits, word boundary) at exactly position p, returning the match
length.  Backtracking inside the optional fraction group cannot shorten the
digit run (every shorter end lands on a digit, a word character), so the
group either matches in full with a boundary after it or is dropped, in
which case the dot is a non-word character and the boundary always holds. -/
def matchNumAt (text : Str) (p : Nat) : Option Nat :=
  match text.get? p with
  | none => none
  | some c =>
    if !c.isDigit then none
    else if !(p = 0 || !isWordChar (text.getD (p - 1) ' ')) then none
    else
      let d1 := digitRunLen text (p + 1)
      let e1 := p + 1 + d1
      if text.get? e1 = some '.' && 0 < digitRunLen text (e1 + 1) then
        let d2 := digitRunLen text (e1 + 1)
        if boundaryAt text (e1 + 1 + d2) then some (1 + d1 + 1 + d2)
        else some (1 + d1)
      else
        if boundaryAt text e1 then some (1 + d1) else none

/-- The exec loop of the variable pattern: from lastIndex i, the engine
finds the leftmost match at or after i, emits it and continues from its
end.  Fuel length + 1 suffices: each step consumes one unit of fuel and
advances i by at least one, and once i exceeds the length both the source
loop and the model stop. -/
def varScanAux (text : Str) : Nat → Nat → List DynamicFragmentMatch
  | 0, _ => []
  | fuel + 1, i =>
    if i < text.length then
      match matchVarAt text i with
      | some len =>
        let raw := sliceL text i (i + len)
        let content := sliceL text (i + 2) (i + len - 1)
        let name :=
          match sanitizeVariableName (some content) with
          | some n => some n
          | none => sanitizeVariableName (some raw)
        ⟨.variableK, raw, name, i, i + len⟩ :: varScanAux text fuel (i + len)
      | none => varScanAux text fuel (i + 1)
    else []

/-- All matches of the default variable pattern, in order. -/
def varMatches (text : Str) : List DynamicFragmentMatch :=
  varScanAux text (text.length + 1) 0

/-- The exec loop of the number pattern, as for varScanAux. -/
def numScanAux (text : Str) : Nat → Nat → List DynamicFragmentMatch
  | 0, _ => []
  | fuel + 1, i =>
    if i < text.length then
      match matchNumAt text i with
      | some len =>
        ⟨.numberK, sliceL text i (i + len), none, i, i + len⟩ ::
          numScanAux text fuel (i + len)
      | none => numScanAux text fuel (i + 1)
    else []

/-- All matches of the number pattern, in order. -/
def numMatches (text : Str) : List DynamicFragmentMatch :=
  numScanAux text (text.length + 1) 0

/-- Merge of two start-sorted match lists by start offset.  The source
concatenates the variable matches and the number matches and sorts the
result by start with a stable sort; since each scanner emits strictly
increasing start offsets and a variable match (starting with a dollar)
never shares a start with a number match (starting with a digit), that
stable sort is exactly this merge. -/
def mergeByStartAux : Nat → List DynamicFragmentMatch → List DynamicFragmentMatch →
    List DynamicFragmentMatch
  | 0, xs, ys => xs ++ ys
  | _ + 1, [], ys => ys
  | _ + 1, x :: xs, [] => x :: xs
  | fuel + 1, x :: xs, y :: ys =>
    if x.start ≤ y.start then x :: mergeByStartAux fuel xs (y :: ys)
    else y :: mergeByStartAux fuel (x :: xs) ys

/-- Merge entry point; the fuel equals the total length and each step
consumes one element, so it never runs out. -/
def mergeByStart (xs ys : List DynamicFragmentMatch) : List DynamicFragmentMatch :=
  mergeByStartAux (xs.length + ys.length) xs ys

/-- #collectDynamicMatches: variable matches and number matches, sorted by
start offset. -/
def collectDynamicMatches (text : Str) : List DynamicFragmentMatch :=
  mergeByStart (varMatches text) (numMatches text)

/-- The #placeholderToken constant of the observer. -/
def placeholderTok : Str := ['{', '}']

/-- The normalized-parts loop of #normalizeText: before each match the
literal slice from the previous end, then the placeholder token, and after
the last match the remaining tail. -/
def buildNormalized (text : Str) : Nat → List DynamicFragmentMatch → Str
  | lastIndex, [] => sliceFrom text lastIndex
  | lastIndex, m :: ms =>
    sliceL text lastIndex m.start ++ placeholderTok ++ buildNormalized text m.stop ms

/-- Result record of #normalizeText. -/
structure NormalizationResult where
  normalized : Str
  hasVariables : Bool
  hasNumbers : Bool
  fragments : List DynamicFragment
deriving DecidableEq, Repr

/-- #normalizeText: with no dynamic matches the text itself is returned
unchanged with no fragments; otherwise every matched span is replaced by
the placeholder token and the fragment list mirrors the matches. -/
def normalizeText (text : Str) : NormalizationResult :=
  let found := collectDynamicMatches text
  if found = [] then
    { normalized := text, hasVariables := false, hasNumbers := false, fragments := [] }
  else
    let fragments := found.map toFragment
    { normalized := buildNormalized text 0 found
      hasVariables := fragments.any isVariableFragment
      hasNumbers := fragments.any isNumberFragment
      fragments := fragments }

/-- #reconstructText: walks the fragments in order and replaces the first
placeholder occurrence with the resolved variable value (falling back to
the raw text) or the raw number text.  The variable resolver receives the
raw text and the optional name; in the source it reads ancestor attributes
of the container element, a host-tree query, so it is a parameter here. -/
def reconstructText (translatedBase : Str) (fragments : Option (List DynamicFragment))
    (resolveVariable : Str → Option Str → Option Str) : Str :=
  match fragments with
  | none => translatedBase
  | some frags =>
    if frags = [] then translatedBase
    else
      frags.foldl
        (fun result fragment =>
          let replacement :=
            match fragment with
            | .variableFragment raw name => (resolveVariable raw name).getD raw
            | .numberFragment raw => raw
          replaceFirst result placeholderTok replacement)
        translatedBase

/-! ## Directive Resolver (observer.ts #shouldProcessTextNode,
#findTransmutDirective, #hasSkipAttribute, #parseTransmutDirective,
#getSectionLocaleInfo, #compileLocaleDirective and helpers).  An element is
modelled by the attributes and host-derived facts these functions read; an
ancestor walk is a list, the element first and the root last. -/

/-- The BOOLEAN_FALSE_VALUES set of observer/constants.ts. -/
def booleanFalseValues : List Str :=
  ["false".data, "off".data, "no".data, "0".data, "none".data, "exclude".data]

/-- The DATA_DIRECTIVE_SKIP_VALUES set. -/
def dataDirectiveSkipValues : List Str :=
  ["false".data, "off".data, "skip".data, "ignore".data, "no".data,
   "none".data, "stop".data]

/-- The DATA_DIRECTIVE_INCLUDE_VALUES set. -/
def dataDirectiveIncludeValues : List Str :=
  ["".data, "true".data, "on".data, "yes".data, "include".data,
   "auto".data, "all".data]

/-- An element of the host tree, reduced to what the directive resolver
reads: tag name, editability, attribute values (none when absent) and the
host CSS query result for the configured text selector (element.closest,
evaluated by the host selector engine). -/
structure Elem where
  tagName : Str := "DIV".data
  isContentEditable : Bool := false
  closestMatchesTextSelector : Bool := false
  transmutSkipAttr : Option Str := none
  transmutAttr : Option Str := none
  transmutLocaleAttr : Option Str := none
  langAttr : Option Str := none
  transmutDirAttr : Option Str := none
  dirAttr : Option Str := none
deriving DecidableEq, Repr

/-- #hasSkipAttribute: present and empty counts as skip; otherwise any
value outside BOOLEAN_FALSE_VALUES counts as skip. -/
def hasSkipAttribute (e : Elem) : Bool :=
  match e.transmutSkipAttr with
  | none => false
  | some attr =>
    let normalized := toLowerStr (trimStr attr)
    if normalized = [] then true
    else !(booleanFalseValues.contains normalized)

/-- The three-valued result of #parseTransmutDirective. -/
inductive TransmutDirective
  | include
  | skip
  | inherit
deriving DecidableEq, Repr

/-- #parseTransmutDirective on a present attribute value. -/
def parseTransmutDirective (value : Str) : TransmutDirective :=
  let normalized := toLowerStr (trimStr value)
  if dataDirectiveSkipValues.contains normalized then .skip
  else if normalized = "inherit".data then .inherit
  else if dataDirectiveIncludeValues.contains normalized then .include
  else .include

/-- #findTransmutDirective: walks from the element upward; at each element
the skip attribute is checked first and short-circuits to skip, then a
present data-transmut value other than inherit is returned; otherwise the
walk continues to the parent. -/
def findTransmutDirective : List Elem → Option TransmutDirective
  | [] => none
  | e :: ancestors =>
    if hasSkipAttribute e then some .skip
    else
      match e.transmutAttr with
      | some value =>
        match parseTransmutDirective value with
        | .inherit => findTransmutDirective ancestors
        | d => some d
      | none => findTransmutDirective ancestors

/-- #isEditable: contentEditable or a form-control tag. -/
def isEditable (e : Elem) : Bool :=
  e.isContentEditable || e.tagName = "INPUT".data || e.tagName = "TEXTAREA".data
    || e.tagName = "SELECT".data

/-- #isProhibitedContainer: script, style and noscript containers. -/
def isProhibitedContainer (e : Elem) : Bool :=
  e.tagName = "SCRIPT".data || e.tagName = "STYLE".data || e.tagName = "NOSCRIPT".data

/-- JS value.split(separator) on a single separator character. -/
def splitOnChar (sep : Char) (s : Str) : List Str :=
  List.splitOn sep s

/-- #formatLocaleTag: trim, underscores to hyphens, split on hyphens,
lowercase the language, uppercase the first remaining segment, keep later
segments, drop empty segments, and rejoin. -/
def formatLocaleTag (value : Str) : Str :=
  let normalized := (trimStr value).map (fun c => if c = '_' then '-' else c)
  if normalized = [] then normalized
  else
    let segments := splitOnChar '-' normalized
    let lang := segments.headD []
    let rest := segments.tail
    let formattedLang := toLowerStr lang
    let formattedRest :=
      rest.enum.map (fun si => if si.1 = 0 then toUpperStr si.2 else si.2)
    let remainder := formattedRest.filter (fun s => s ≠ [])
    if remainder = [] then formattedLang
    else formattedLang ++ '-' :: (List.intercalate ['-'] remainder)

/-- #composeLocaleTag: lowercased language, uppercased region, joined with
a hyphen when the region is nonempty. -/
def composeLocaleTag (lang region : Str) : Str :=
  let trimmedLang := toLowerStr lang
  let trimmedRegion := toUpperStr region
  if trimmedRegion = [] then trimmedLang
  else trimmedLang ++ '-' :: trimmedRegion

/-- SectionLocaleDirective restricted to the fields that determine
translation eligibility (the direction field only drives metadata writes
and never affects whether a node is translated). -/
structure SectionLocaleDirective where
  localeTag : Option Str := none
  skipTranslation : Bool
deriving DecidableEq, Repr

/-- #normalizeLocaleDirective on a present data-transmut-locale value. -/
def normalizeLocaleDirective (currentLocaleTag : Str) (value : Str) :
    Option SectionLocaleDirective :=
  let trimmed := trimStr value
  if trimmed = [] then some { skipTranslation := false }
  else
    let lower := toLowerStr trimmed
    if lower = "inherit".data || lower = "auto".data || lower = "target".data then
      some { skipTranslation := false }
    else if lower = "skip".data || lower = "source".data || lower = "original".data
        || lower = "none".data then
      some { skipTranslation := true }
    else
      let localeTag := formatLocaleTag trimmed
      some { localeTag := some localeTag
             skipTranslation := toLowerStr localeTag ≠ toLowerStr currentLocaleTag }

/-- #readDirectionOverride: data-transmut-dir, else dir, accepted when the
trimmed lowercase value is ltr or rtl. -/
def readDirectionOverride (e : Elem) : Option Str :=
  match e.transmutDirAttr with
  | some raw => readDirectionValue raw
  | none =>
    match e.dirAttr with
    | some raw => readDirectionValue raw
    | none => none
where
  readDirectionValue (raw : Str) : Option Str :=
    let normalized := toLowerStr (trimStr raw)
    if normalized = "ltr".data || normalized = "rtl".data then some normalized
    else none

/-- #compileLocaleDirective restricted to the eligibility fields: a
data-transmut-locale attribute wins, else a nonempty lang attribute whose
formatted tag is compared to the current locale tag, else a valid
data-transmut-dir override yields a non-skipping directive. -/
def compileLocaleDirective (currentLocaleTag : Str) (e : Elem) :
    Option SectionLocaleDirective :=
  match e.transmutLocaleAttr with
  | some value => normalizeLocaleDirective currentLocaleTag value
  | none =>
    match e.langAttr with
    | some langValue =>
      if langValue = [] then none
      else
        let localeTag := formatLocaleTag langValue
        if localeTag = [] then none
        else
          some { localeTag := some localeTag
                 skipTranslation := toLowerStr localeTag ≠ toLowerStr currentLocaleTag }
    | none =>
      match e.transmutDirAttr with
      | some _ =>
        match readDirectionOverride e with
        | some _ => some { skipTranslation := false }
        | none => none
      | none => none

/-- #getSectionLocaleInfo as seen by #shouldProcessTextNode: the walk stops
at the first ancestor whose compiled locale directive requests a skip
(directives that do not skip only trigger metadata writes and the walk
continues), so the caller observes a skip exactly when some element of the
chain compiles to a skipping directive. -/
def getSectionLocaleSkip (currentLocaleTag : Str) : List Elem → Bool
  | [] => false
  | e :: ancestors =>
    match compileLocaleDirective currentLocaleTag e with
    | some d => if d.skipTranslation then true else getSectionLocaleSkip currentLocaleTag ancestors
    | none => getSectionLocaleSkip currentLocaleTag ancestors

/-- The options fields read by #shouldProcessTextNode. -/
structure EligibilityOptions where
  requireExplicitOptIn : Bool := false
  skipEditable : Bool := true
  textSelector : Option Str := none
deriving DecidableEq, Repr

/-- #matchesTextSelector: false without a configured selector, else the
host CSS result of element.closest on the container. -/
def matchesTextSelector (o : EligibilityOptions) (e : Elem) : Bool :=
  match o.textSelector with
  | none => false
  | some _ => e.closestMatchesTextSelector

/-- #shouldProcessTextNode over the container ancestor chain (an empty
chain is a text node with no container element). -/
def shouldProcessTextNode (o : EligibilityOptions) (currentLocaleTag : Str) :
    List Elem → Bool
  | [] => !o.requireExplicitOptIn
  | container :: ancestors =>
    if o.skipEditable && isEditable container then false
    else if isProhibitedContainer container then false
    else
      let directive := findTransmutDirective (container :: ancestors)
      if directive = some .skip then false
      else if getSectionLocaleSkip currentLocaleTag (container :: ancestors) then false
      else if o.requireExplicitOptIn then
        matchesTextSelector o container || directive = some .include
      else if matchesTextSelector o container then true
      else if directive = some .include then true
      else true

/-! ## Options resolution (observer/options.ts resolveObserverOptions and
the identical observer.ts #resolveOptions), variable-capture-group part. -/

/-- A JS number as it can arrive in an options bag: NaN, an infinity, or a
finite value (finite doubles modelled as rationals). -/
inductive JsNumber
  | nan
  | posInf
  | negInf
  | finite (q : ℚ)
deriving DecidableEq

/-- The variableNameGroup resolution of resolveObserverOptions: default 1;
a number passing Number.isFinite is floored; a negative result is clamped
to 0.  A missing value or a non-finite number (NaN and the infinities are
the only numbers failing Number.isFinite) keeps the default. -/
def resolveVariableNameGroup (variableNameGroup : Option JsNumber) : Int :=
  let g : Int :=
    match variableNameGroup with
    | some (.finite q) => ⌊q⌋
    | _ => 1
  if g < 0 then 0 else g

/-! ## Locale/Metadata Controller (observer.ts changeLocale lines 676-695):
the state updated is the pair of active language and region (the database
handle reset and metadata restamping are host effects). -/

/-- changeLocale: a missing argument defaults to the empty string, and the
JS or-else replaces an empty (falsy) language or region by the
construction-time default. -/
def changeLocale (defaultLanguage defaultRegion : Str) (langCode : Str := [])
    (region : Str := []) : Str × Str :=
  let nextLang := if langCode = [] then defaultLanguage else langCode
  let nextRegion := if region = [] then defaultRegion else region
  (nextLang, nextRegion)

/-- #composeDbName of the observer and cache: transmut.lang.region with the
sentinel default for an empty region. -/
def composeDbName (lang region : Str) : Str :=
  "transmut.".data ++ lang ++ '.' :: (if region = [] then "default".data else region)

/-! ## Batch Translator cycle (observer.ts #translate lines 1662-1732).
The cache read, the offline flag and the external lookup are host effects
and enter as parameters; the classification, staleness, offline and
failure-recovery logic is embedded as in the source. -/

/-- A cache record as normalized by #getCachedTranslations. -/
structure CachedEntry where
  value : Str
  updatedAt : ℚ
deriving DecidableEq

/-- expiryMs from the constructor: a positive expiryHours scaled to
milliseconds, otherwise null. -/
def expiryMsOfHours (expiryHours : Option ℚ) : Option ℚ :=
  match expiryHours with
  | some h => if 0 < h then some (h * 60 * 60 * 1000) else none
  | none => none

/-- The per-key partition of a batch in #translate. -/
structure ClassifiedBatch where
  resolved : List (Str × Str)
  missingKeys : List Str
  staleKeys : List Str
deriving DecidableEq

/-- The classification loop of #translate: a key without a cache entry is
missing; a key with an entry is resolved from the cache, and additionally
stale when an expiry is configured, nonnegative, and now minus updatedAt
reaches it. -/
def classifyKeys (expiryMs : Option ℚ) (now : ℚ) (cached : Str → Option CachedEntry) :
    List Str → ClassifiedBatch
  | [] => { resolved := [], missingKeys := [], staleKeys := [] }
  | key :: rest =>
    let r := classifyKeys expiryMs now cached rest
    match cached key with
    | none => { r with missingKeys := key :: r.missingKeys }
    | some entry =>
      let isStale :=
        match expiryMs with
        | some ms => decide (0 ≤ ms) && decide (ms ≤ now - entry.updatedAt)
        | none => false
      if isStale then
        { resolved := (key, entry.value) :: r.resolved
          missingKeys := r.missingKeys
          staleKeys := key :: r.staleKeys }
      else { r with resolved := (key, entry.value) :: r.resolved }

/-- keysNeedingFetch: empty when the runtime reports offline, otherwise the
deduplicated union of the missing and stale keys. -/
def keysNeedingFetch (isOffline : Bool) (missingKeys staleKeys : List Str) : List Str :=
  if isOffline then [] else jsSetDedup (missingKeys ++ staleKeys)

/-- Outcome of one external lookup call: a rejection, a map payload, or a
string payload carried together with its JSON parse outcome (JSON.parse is
a host primitive; none is a parse failure). -/
inductive LookupOutcome
  | rejected
  | mapResult (m : List (Str × Str))
  | stringResult (parsed : Option (List (Str × Str)))

/-- The fetch-and-recover block of #translate: a rejection is caught and
treated as an empty map, a string payload is parsed and a parse failure is
caught and treated as an empty map, and a null-ish map is replaced by an
empty one. -/
def parseFetchedPayload : LookupOutcome → List (Str × Str)
  | .rejected => []
  | .mapResult m => m
  | .stringResult (some m) => m
  | .stringResult none => []

/-- Object.assign(resolved, fetched): entries of the update map override
entries of the base map with the same key. -/
def overrideAssoc (base updates : List (Str × Str)) : List (Str × Str) :=
  base.filter (fun kv => !(updates.any (fun uv => uv.1 = kv.1))) ++ updates

/-- Observable outcome of one #translate cycle up to the apply phase: the
resolved map and the external lookup calls issued. -/
structure TranslateCycleResult where
  resolved : List (Str × Str)
  lookupCalls : List (List Str)
deriving DecidableEq

/-- #translate, resolution phase: classify the batch against the cache,
skip the lookup when offline or when nothing needs fetching, otherwise
issue one lookup over the union of missing and stale keys, recover from
every lookup failure as an empty result, and merge nonempty results over
the cache hits. -/
def translateCycle (expiryMs : Option ℚ) (now : ℚ) (cached : Str → Option CachedEntry)
    (isOffline : Bool) (lookup : List Str → LookupOutcome) (batch : List Str) :
    TranslateCycleResult :=
  if batch = [] then { resolved := [], lookupCalls := [] }
  else
    let c := classifyKeys expiryMs now cached batch
    let fetchKeys := keysNeedingFetch isOffline c.missingKeys c.staleKeys
    if fetchKeys = [] then { resolved := c.resolved, lookupCalls := [] }
    else
      let fetched := parseFetchedPayload (lookup fetchKeys)
      if fetched = [] then { resolved := c.resolved, lookupCalls := [fetchKeys] }
      else { resolved := overrideAssoc c.resolved fetched, lookupCalls := [fetchKeys] }

/-! ## Node State Tracker (observer.ts #handlePotentialText lines
1614-1654 and the text apply phase of #translate lines 1736-1780).  The
model is per tracked text node; the tree write is reported as an optional
new text content. -/

/-- The per-text-node state record of #nodeStates. -/
structure NodeState where
  translated : Bool
  lastText : Str
  pendingSource : Option Str := none
  normalizedKey : Option Str := none
  fragments : Option (List DynamicFragment) := none
deriving DecidableEq

/-- What one #handlePotentialText visit does to a tracked text node. -/
inductive ScanAction
  | removeState
  | unchanged
  | enqueue (key : Str) (st : NodeState)
deriving DecidableEq

/-- The skip test existing?.translated and existing.lastText equal to the
current content. -/
def existingTranslatedMatches : Option NodeState → Str → Bool
  | some st, content => st.translated && st.lastText = content
  | none, _ => false

/-- #handlePotentialText on one text node: drop the tracked state when the
node is ineligible or whitespace-only, skip a node whose translated state
matches the current content, otherwise normalize, choose the lookup key
(the normalized text when dynamic content was found, else the content
itself), enqueue the key and record the pending state. -/
def handleTextScan (shouldProcess : Bool) (content : Str) (existing : Option NodeState) :
    ScanAction :=
  if !shouldProcess then .removeState
  else if trimStr content = [] then .removeState
  else if existingTranslatedMatches existing content then .unchanged
  else if content = [] then .unchanged
  else
    let n := normalizeText content
    let dynamic := n.hasVariables || n.hasNumbers
    let translationKey := if dynamic then n.normalized else content
    .enqueue translationKey
      { translated := false
        lastText := content
        pendingSource := some translationKey
        normalizedKey := if dynamic then some n.normalized else none
        fragments := if n.fragments = [] then none else some n.fragments }

/-- Result of the apply phase on one node: the updated state and the
optional text write into the tree. -/
structure ApplyResult where
  state : NodeState
  write : Option Str
deriving DecidableEq

/-- The text apply phase of #translate for one tracked node: nodes without
a pending key in the requested batch are untouched; a node whose current
content no longer equals the captured content discards the result and
resets to an untranslated state holding the newer content; otherwise a
truthy resolved value differing from the content is applied (reconstructed
first when the key was normalized) and the state becomes translated with
the applied text, and in every other case the state becomes translated
with the current content and nothing is written. -/
def applyTranslation (requested : Str → Bool) (resolved : Str → Option Str)
    (resolveVariable : Str → Option Str → Option Str)
    (st : NodeState) (currentText : Str) : ApplyResult :=
  match st.pendingSource with
  | none => { state := st, write := none }
  | some pending =>
    if !requested pending then { state := st, write := none }
    else if currentText ≠ st.lastText then
      { state := { translated := false, lastText := currentText }, write := none }
    else
      let translatedBase := resolved pending
      match translatedBase with
      | some base =>
        if base ≠ [] ∧ base ≠ currentText then
          let finalTranslation :=
            match st.normalizedKey with
            | some _ => reconstructText base st.fragments resolveVariable
            | none => base
          { state := { translated := true, lastText := finalTranslation }
            write := some finalTranslation }
        else { state := { translated := true, lastText := currentText }, write := none }
      | none => { state := { translated := true, lastText := currentText }, write := none }

/-! ## Helper lemmas -/

/-- The resolved list of the classification loop on a cons: a cache hit is
prepended and a miss leaves it unchanged, independent of staleness. -/
lemma classifyKeys_resolved_cons (expiryMs : Option ℚ) (now : ℚ)
    (cached : Str → Option CachedEntry) (k : Str) (rest : List Str) :
    (classifyKeys expiryMs now cached (k :: rest)).resolved =
      match cached k with
      | none => (classifyKeys expiryMs now cached rest).resolved
      | some entry => (k, entry.value) :: (classifyKeys expiryMs now cached rest).resolved := by
  cases hck : cached k with
  | none => simp [classifyKeys, hck]
  | some entry =>
    simp only [classifyKeys, hck]
    split <;> rfl

/-- Membership in the resolved map built by the classification loop is
exactly a cache hit on a batch key. -/
lemma mem_classifyKeys_resolved (expiryMs : Option ℚ) (now : ℚ)
    (cached : Str → Option CachedEntry) (batch : List Str) (key value : Str) :
    (key, value) ∈ (classifyKeys expiryMs now cached batch).resolved ↔
      key ∈ batch ∧ ∃ entry, cached key = some entry ∧ entry.value = value := by
  induction batch with
  | nil => simp [classifyKeys]
  | cons k rest ih =>
    rw [classifyKeys_resolved_cons]
    cases hc : cached k with
    | none =>
      rw [ih]
      simp only [List.mem_cons]
      constructor
      · rintro ⟨hk, he⟩; exact ⟨Or.inr hk, he⟩
      · rintro ⟨hk | hk, entry, hentry, hvalue⟩
        · subst hk; rw [hc] at hentry; cases hentry
        · exact ⟨hk, entry, hentry, hvalue⟩
    | some entry =>
      simp only [List.mem_cons, Prod.mk.injEq, ih]
      constructor
      · rintro (⟨rfl, rfl⟩ | ⟨hk, he⟩)
        · exact ⟨Or.inl rfl, entry, hc, rfl⟩
        · exact ⟨Or.inr hk, he⟩
      · rintro ⟨hk | hk, e, hentry, hvalue⟩
        · subst hk; rw [hc] at hentry; cases hentry
          exact Or.inl ⟨rfl, hvalue.symm⟩
        · exact Or.inr ⟨hk, e, hentry, hvalue⟩

/-- The deduplication worker preserves membership for any fuel. -/
lemma mem_jsSetDedupAux (a : Str) :
    ∀ (fuel : Nat) (l : List Str), a ∈ jsSetDedupAux fuel l ↔ a ∈ l := by
  intro fuel
  induction fuel with
  | zero => intro l; simp [jsSetDedupAux]
  | succ n ih =>
    intro l
    cases l with
    | nil => simp [jsSetDedupAux]
    | cons x xs =>
      simp only [jsSetDedupAux, List.mem_cons, ih, List.mem_filter,
        decide_eq_true_eq]
      constructor
      · rintro (rfl | ⟨hx, _⟩)
        · exact Or.inl rfl
        · exact Or.inr hx
      · rintro (rfl | hx)
        · exact Or.inl rfl
        · by_cases hax : a = x
          · exact Or.inl hax
          · exact Or.inr ⟨hx, hax⟩

/-- Membership in jsSetDedup equals membership in the input. -/
lemma mem_jsSetDedup (a : Str) (l : List Str) : a ∈ jsSetDedup l ↔ a ∈ l :=
  mem_jsSetDedupAux a l.length l

/-! ## Claim theorems -/

/-- C9: option resolution never rejects a malformed variable-capture-group
index: the resolved value is always a nonnegative integer; a missing or
non-finite value resolves to the default 1; a finite value is floored and
then clamped to 0 when negative. -/
theorem resolveVariableNameGroup_clamped (o : Option JsNumber) :
    0 ≤ resolveVariableNameGroup o ∧
    (∀ q : ℚ, o = some (.finite q) →
      resolveVariableNameGroup o = if ⌊q⌋ < 0 then 0 else ⌊q⌋) ∧
    ((o = none ∨ o = some .nan ∨ o = some .posInf ∨ o = some .negInf) →
      resolveVariableNameGroup o = 1) := by
  refine ⟨?_, ?_, ?_⟩
  · unfold resolveVariableNameGroup
    rcases o with _ | j
    · simp
    · rcases j with _ | _ | _ | q <;> simp
      split <;> omega
  · rintro q rfl
    unfold resolveVariableNameGroup
    simp
  · rintro (rfl | rfl | rfl | rfl) <;> simp [resolveVariableNameGroup]

/-- Witness for C9 at concrete inputs: 7/2 floors to 3, a negative value
clamps to 0, NaN keeps the default 1. -/
theorem resolveVariableNameGroup_clamped_witness :
    0 ≤ resolveVariableNameGroup (some (.finite (7 / 2))) ∧
    resolveVariableNameGroup (some (.finite (7 / 2))) = 3 ∧
    resolveVariableNameGroup (some (.finite (-5))) = 0 ∧
    resolveVariableNameGroup (some .nan) = 1 := by
  refine ⟨(resolveVariableNameGroup_clamped _).1, ?_, ?_, ?_⟩
  · have h := (resolveVariableNameGroup_clamped (some (.finite (7 / 2)))).2.1 (7 / 2) rfl
    rw [h]; norm_num
  · have h := (resolveVariableNameGroup_clamped (some (.finite (-5)))).2.1 (-5) rfl
    rw [h]; norm_num
  · exact (resolveVariableNameGroup_clamped (some .nan)).2.2 (Or.inr (Or.inl rfl))

/-- C10: changeLocale replaces an omitted or empty language by the default
language and an omitted or empty region by the default region; with no
arguments it resets to the default locale, and with a language only it
pairs that language with the default region. -/
theorem changeLocale_defaults (dl dr l r : Str) :
    changeLocale dl dr = (dl, dr) ∧
    (changeLocale dl dr l r).1 = (if l = [] then dl else l) ∧
    (changeLocale dl dr l r).2 = (if r = [] then dr else r) ∧
    (l ≠ [] → changeLocale dl dr l = (l, dr)) := by
  refine ⟨rfl, rfl, rfl, ?_⟩
  intro hl
  simp [changeLocale, hl]

/-- Witness for C10: with defaults en/US, no arguments resets to (en, US)
and a language-only call yields (fr, US), not a region-less locale. -/
theorem changeLocale_defaults_witness :
    changeLocale "en".data "US".data = ("en".data, "US".data) ∧
    changeLocale "en".data "US".data "fr".data = ("fr".data, "US".data) :=
  ⟨(changeLocale_defaults "en".data "US".data [] []).1,
   (changeLocale_defaults "en".data "US".data "fr".data []).2.2.2 (by decide)⟩

/-- C8: normalize returns the input unchanged with both flags false when no
fragment is produced, and in general hasVariables holds exactly when some
fragment is a variable fragment and hasNumbers exactly when some fragment
is a number fragment. -/
theorem normalizeText_invariants (text : Str) :
    ((normalizeText text).fragments = [] →
      (normalizeText text).normalized = text ∧
      (normalizeText text).hasVariables = false ∧
      (normalizeText text).hasNumbers = false) ∧
    ((normalizeText text).hasVariables = true ↔
      ∃ f ∈ (normalizeText text).fragments, isVariableFragment f = true) ∧
    ((normalizeText text).hasNumbers = true ↔
      ∃ f ∈ (normalizeText text).fragments, isNumberFragment f = true) := by
  unfold normalizeText
  cases h : collectDynamicMatches text with
  | nil => simp
  | cons m ms =>
    simp [List.any_eq_true]

/-- Witness for C8 on a text with no dynamic content. -/
theorem normalizeText_invariants_witness :
    (normalizeText "hola".data).fragments = [] ∧
    (normalizeText "hola".data).normalized = "hola".data ∧
    (normalizeText "hola".data).hasVariables = false ∧
    (normalizeText "hola".data).hasNumbers = false := by
  have h := (normalizeText_invariants "hola".data).1 (by decide)
  exact ⟨by decide, h.1, h.2.1, h.2.2⟩

/-- C5: with expiryHours 1, a cached key is classified stale exactly when
now minus updatedAt reaches 3600000 milliseconds; the entry is still a
cache hit in the resolved map and never a miss; a stale key is included in
the external lookup set despite the hit, and a fresh key produces no
lookup. -/
theorem staleness_boundary_expiry_one_hour (now updatedAt : ℚ) (key value : Str) :
    let expiryMs := expiryMsOfHours (some 1)
    let cached := fun k => if k = key then some ⟨value, updatedAt⟩ else none
    let c := classifyKeys expiryMs now cached [key]
    (key ∈ c.staleKeys ↔ 3600000 ≤ now - updatedAt) ∧
    (key, value) ∈ c.resolved ∧
    c.missingKeys = [] ∧
    (3600000 ≤ now - updatedAt →
      keysNeedingFetch false c.missingKeys c.staleKeys = [key]) ∧
    (now - updatedAt < 3600000 →
      keysNeedingFetch false c.missingKeys c.staleKeys = []) := by
  have hexp : expiryMsOfHours (some 1) = some 3600000 := by
    simp only [expiryMsOfHours]
    norm_num
  intro expiryMs cached c
  have hc : c = classifyKeys (some 3600000) now cached [key] := by
    show classifyKeys expiryMs now cached [key] = _
    rw [show expiryMs = expiryMsOfHours (some 1) from rfl, hexp]
  have hcached : cached key = some ⟨value, updatedAt⟩ := by
    show (if key = key then _ else _) = _
    rw [if_pos rfl]
  by_cases hstale : (3600000 : ℚ) ≤ now - updatedAt
  · have hcval : c = ⟨[(key, value)], [], [key]⟩ := by
      rw [hc]
      simp [classifyKeys, hcached, hstale]
    refine ⟨?_, ?_, ?_, ?_, ?_⟩
    · rw [hcval]; simpa using hstale
    · rw [hcval]; simp
    · rw [hcval]
    · intro _; rw [hcval]
      simp [keysNeedingFetch, jsSetDedup, jsSetDedupAux]
    · intro hlt; exact absurd hstale (not_le.mpr hlt)
  · have hcval : c = ⟨[(key, value)], [], []⟩ := by
      rw [hc]
      simp [classifyKeys, hcached, hstale]
    refine ⟨?_, ?_, ?_, ?_, ?_⟩
    · rw [hcval]; simpa using hstale
    · rw [hcval]; simp
    · rw [hcval]
    · intro hge; exact absurd hge hstale
    · intro _; rw [hcval]
      simp [keysNeedingFetch, jsSetDedup, jsSetDedupAux]

/-- Witness for C5: an entry two hours old is stale and fetched despite the
hit; an entry thirty minutes old is fresh and triggers no lookup. -/
theorem staleness_boundary_expiry_one_hour_witness :
    (let c := classifyKeys (expiryMsOfHours (some 1)) 7200000
        (fun k => if k = "k".data then some ⟨"v".data, 0⟩ else none) ["k".data]
     "k".data ∈ c.staleKeys ∧ ("k".data, "v".data) ∈ c.resolved ∧
       keysNeedingFetch false c.missingKeys c.staleKeys = ["k".data]) ∧
    (let c := classifyKeys (expiryMsOfHours (some 1)) 1800000
        (fun k => if k = "k".data then some ⟨"v".data, 0⟩ else none) ["k".data]
     "k".data ∉ c.staleKeys ∧ ("k".data, "v".data) ∈ c.resolved ∧
       keysNeedingFetch false c.missingKeys c.staleKeys = []) := by
  constructor
  · have h := staleness_boundary_expiry_one_hour 7200000 0 "k".data "v".data
    exact ⟨h.1.mpr (by norm_num), h.2.1, h.2.2.2.1 (by norm_num)⟩
  · have h := staleness_boundary_expiry_one_hour 1800000 0 "k".data "v".data
    refine ⟨fun hmem => ?_, h.2.1, h.2.2.2.2 (by norm_num)⟩
    have := h.1.mp hmem
    norm_num at this

/-- C6: an offline cycle issues zero external lookup calls and resolves
exactly the cache hits of the batch, fresh and stale alike. -/
theorem offline_cycle_uses_cache_only (expiryMs : Option ℚ) (now : ℚ)
    (cached : Str → Option CachedEntry) (lookup : List Str → LookupOutcome)
    (batch : List Str) :
    (translateCycle expiryMs now cached true lookup batch).lookupCalls = [] ∧
    (translateCycle expiryMs now cached true lookup batch).resolved =
      (classifyKeys expiryMs now cached batch).resolved ∧
    (∀ key value,
      (key, value) ∈ (translateCycle expiryMs now cached true lookup batch).resolved ↔
        key ∈ batch ∧ ∃ entry, cached key = some entry ∧ entry.value = value) := by
  have hres : translateCycle expiryMs now cached true lookup batch =
      { resolved := (classifyKeys expiryMs now cached batch).resolved,
        lookupCalls := [] } := by
    unfold translateCycle
    by_cases hb : batch = []
    · subst hb; simp [classifyKeys]
    · simp [hb, keysNeedingFetch]
  refine ⟨by rw [hres], by rw [hres], ?_⟩
  intro key value
  rw [hres]
  exact mem_classifyKeys_resolved expiryMs now cached batch key value

/-- C7: a cycle whose external lookup rejects, or returns a string payload
that fails to parse, behaves exactly like a cycle whose lookup returns an
empty map: no error escapes (the embedded cycle is total and equal to the
recovered one) and the cache-resolved values of the batch are still the
resolved values. -/
theorem lookup_failure_treated_as_empty (expiryMs : Option ℚ) (now : ℚ)
    (cached : Str → Option CachedEntry) (batch : List Str)
    (outcome : LookupOutcome)
    (h : outcome = .rejected ∨ outcome = .stringResult none) :
    translateCycle expiryMs now cached false (fun _ => outcome) batch =
      translateCycle expiryMs now cached false (fun _ => .mapResult []) batch ∧
    (translateCycle expiryMs now cached false (fun _ => outcome) batch).resolved =
      (classifyKeys expiryMs now cached batch).resolved := by
  rcases h with rfl | rfl <;>
  · refine ⟨rfl, ?_⟩
    unfold translateCycle
    by_cases hb : batch = []
    · simp [hb, classifyKeys]
    · simp only [hb, if_false]
      split
      · rfl
      · simp [parseFetchedPayload]

/-- Witness for C7: with an empty cache and a one-key batch, a rejected
lookup and an unparseable payload both leave the cycle equal to the
empty-result cycle. -/
theorem lookup_failure_treated_as_empty_witness :
    translateCycle none 0 (fun _ => none) false (fun _ => .rejected) ["k".data] =
      translateCycle none 0 (fun _ => none) false (fun _ => .mapResult []) ["k".data] ∧
    translateCycle none 0 (fun _ => none) false (fun _ => .stringResult none) ["k".data] =
      translateCycle none 0 (fun _ => none) false (fun _ => .mapResult []) ["k".data] :=
  ⟨(lookup_failure_treated_as_empty none 0 (fun _ => none) ["k".data]
      .rejected (Or.inl rfl)).1,
   (lookup_failure_treated_as_empty none 0 (fun _ => none) ["k".data]
      (.stringResult none) (Or.inr rfl)).1⟩

/-- C1: when the current text differs from the content captured at lookup
time, the apply phase writes nothing into the node, discards the stale
result, and resets the tracked state to untranslated with the newer content
and no pending key; on the next scan such a node is re-enqueued. -/
theorem stale_result_discarded_on_changed_text (requested : Str → Bool)
    (resolved : Str → Option Str) (resolveVariable : Str → Option Str → Option Str)
    (st : NodeState) (currentText key : Str)
    (hpending : st.pendingSource = some key)
    (hrequested : requested key = true)
    (hchanged : currentText ≠ st.lastText) :
    applyTranslation requested resolved resolveVariable st currentText =
      { state := { translated := false, lastText := currentText }, write := none } ∧
    (trimStr currentText ≠ [] →
      ∃ k st2, handleTextScan true currentText
        (some { translated := false, lastText := currentText }) = .enqueue k st2) := by
  constructor
  · unfold applyTranslation
    rw [hpending]
    simp [hrequested, hchanged]
  · intro htrim
    have hcontent : currentText ≠ [] := by
      intro hnil
      exact htrim (by rw [hnil]; rfl)
    unfold handleTextScan
    simp only [Bool.not_true, Bool.false_eq_true, if_false, htrim, if_neg,
      existingTranslatedMatches, Bool.false_and, hcontent]
    exact ⟨_, _, rfl⟩

/-- Witness for C1 at a concrete changed node. -/
theorem stale_result_discarded_on_changed_text_witness :
    applyTranslation (fun k => k = "a".data) (fun _ => some "x".data) (fun _ _ => none)
      { translated := false, lastText := "a".data, pendingSource := some "a".data }
      "b".data =
      { state := { translated := false, lastText := "b".data }, write := none } :=
  (stale_result_discarded_on_changed_text (fun k => decide (k = "a".data))
    (fun _ => some "x".data) (fun _ _ => none)
    { translated := false, lastText := "a".data, pendingSource := some "a".data }
    "b".data "a".data rfl (by decide) (by decide)).1

/-- C4: once one cycle scanned a node into a pending state and its apply
phase ran with the content unchanged, the resulting state is translated
with the applied (or kept) text as last text and no pending key; a second
scan over the unchanged content enqueues nothing (it is skipped as
recognized, or dropped as whitespace), and a second apply phase writes
nothing and leaves the state untouched whatever is requested or resolved. -/
theorem second_cycle_is_noop (requested : Str → Bool) (resolved : Str → Option Str)
    (resolveVariable : Str → Option Str → Option Str)
    (content key : Str) (existing : Option NodeState) (st : NodeState)
    (hscan : handleTextScan true content existing = .enqueue key st)
    (hrequested : requested key = true) :
    let r := applyTranslation requested resolved resolveVariable st content
    let newContent := r.write.getD content
    r.state.translated = true ∧
    r.state.lastText = newContent ∧
    r.state.pendingSource = none ∧
    (trimStr newContent ≠ [] →
      handleTextScan true newContent (some r.state) = .unchanged) ∧
    (trimStr newContent = [] →
      handleTextScan true newContent (some r.state) = .removeState) ∧
    (∀ requested2 resolved2 resolveVariable2,
      applyTranslation requested2 resolved2 resolveVariable2 r.state newContent =
        { state := r.state, write := none }) := by
  have hst : st.pendingSource = some key ∧ st.lastText = content ∧
      st.translated = false := by
    unfold handleTextScan at hscan
    repeat' split at hscan
    all_goals first
      | (cases hscan; exact ⟨rfl, rfl, rfl⟩)
      | cases hscan
  obtain ⟨hpend, hlast, _⟩ := hst
  have happly : applyTranslation requested resolved resolveVariable st content =
      (match resolved key with
        | some base =>
          if base ≠ [] ∧ base ≠ content then
            let finalTranslation :=
              match st.normalizedKey with
              | some _ => reconstructText base st.fragments resolveVariable
              | none => base
            { state := { translated := true, lastText := finalTranslation },
              write := some finalTranslation }
          else { state := { translated := true, lastText := content }, write := none }
        | none => { state := { translated := true, lastText := content }, write := none }) := by
    unfold applyTranslation
    rw [hpend]
    simp [hrequested, hlast]
  intro r newContent
  have hr : r = applyTranslation requested resolved resolveVariable st content := rfl
  rw [happly] at hr
  have hcases : (∃ f, r = ⟨⟨true, f, none, none, none⟩, some f⟩) ∨
      r = ⟨⟨true, content, none, none, none⟩, none⟩ := by
    cases hres : resolved key with
    | none =>
      refine Or.inr ?_
      rw [hr]
      simp only [hres]
    | some base =>
      by_cases hbc : base ≠ [] ∧ base ≠ content
      · refine Or.inl ⟨(match st.normalizedKey with
          | some _ => reconstructText base st.fragments resolveVariable
          | none => base), ?_⟩
        rw [hr]
        simp only [hres, if_pos hbc]
      · refine Or.inr ?_
        rw [hr]
        simp only [hres, if_neg hbc]
  have hnewContent : newContent = r.write.getD content := rfl
  rcases hcases with ⟨f, hfr⟩ | hfr
  · have hnc : newContent = f := by rw [hnewContent, hfr]; rfl
    rw [hfr, hnc]
    refine ⟨rfl, rfl, rfl, ?_, ?_, ?_⟩
    · intro htrim
      unfold handleTextScan
      simp [htrim, existingTranslatedMatches]
    · intro htrim
      unfold handleTextScan
      simp [htrim]
    · intro requested2 resolved2 resolveVariable2
      rfl
  · have hnc : newContent = content := by rw [hnewContent, hfr]; rfl
    rw [hfr, hnc]
    refine ⟨rfl, rfl, rfl, ?_, ?_, ?_⟩
    · intro htrim
      unfold handleTextScan
      simp [htrim, existingTranslatedMatches]
    · intro htrim
      unfold handleTextScan
      simp [htrim]
    · intro requested2 resolved2 resolveVariable2
      rfl

/-- Witness for C4: a node translated from Hello to Hola in one cycle is
recognized and skipped by the next scan and untouched by the next apply. -/
theorem second_cycle_is_noop_witness :
    let r := applyTranslation (fun _ => true)
      (fun k => if k = "Hello".data then some "Hola".data else none)
      (fun _ _ => none)
      { translated := false, lastText := "Hello".data,
        pendingSource := some "Hello".data } "Hello".data
    r.state.translated = true ∧
    handleTextScan true (r.write.getD "Hello".data) (some r.state) = .unchanged ∧
    applyTranslation (fun _ => true)
      (fun k => if k = "Hello".data then some "Hola".data else none)
      (fun _ _ => none) r.state (r.write.getD "Hello".data) =
      { state := r.state, write := none } := by
  have hscan : handleTextScan true "Hello".data none =
      .enqueue "Hello".data
        { translated := false, lastText := "Hello".data,
          pendingSource := some "Hello".data } := by decide
  have h := second_cycle_is_noop (fun _ => true)
    (fun k => if k = "Hello".data then some "Hola".data else none)
    (fun _ _ => none) "Hello".data "Hello".data none
    { translated := false, lastText := "Hello".data,
      pendingSource := some "Hello".data } hscan rfl
  exact ⟨h.1, h.2.2.2.1 (by decide), h.2.2.2.2.2 _ _ _⟩

/-- C2 evaluation: a container with an explicit include marker under an
ancestor carrying the skip attribute resolves to include and is processed,
in the default configuration and in the explicit opt-in configuration
alike, although the ancestor skip marker is present; the upward walk stops
at the nearer include and never reaches the ancestor skip. -/
theorem nearer_include_beats_ancestor_skip :
    let child : Elem := { transmutAttr := some "include".data }
    let parent : Elem := { transmutSkipAttr := some "".data }
    hasSkipAttribute parent = true ∧
    findTransmutDirective [child, parent] = some .include ∧
    shouldProcessTextNode {} "es".data [child, parent] = true ∧
    shouldProcessTextNode
      { requireExplicitOptIn := true, textSelector := some "[data-transmut]".data }
      "es".data
      [{ child with closestMatchesTextSelector := true }, parent] = true := by
  decide

/-! ## Lemmas for the normalization round trip -/

/-- A variable match has positive length. -/
lemma matchVarAt_pos (text : Str) (p len : Nat) (h : matchVarAt text p = some len) :
    0 < len := by
  unfold matchVarAt at h
  split at h
  · split at h
    · split at h
      · injection h with h; omega
      · cases h
    · cases h
  · cases h

/-- A number match has positive length. -/
lemma matchNumAt_pos (text : Str) (p len : Nat) (h : matchNumAt text p = some len) :
    0 < len := by
  unfold matchNumAt at h
  dsimp only [] at h
  repeat' split at h
  all_goals first
    | (injection h with h; omega)
    | cases h

/-- Every match emitted by the variable scanner carries its own slice of
the text as raw value and a strictly positive span. -/
lemma varScanAux_wf (text : Str) :
    ∀ fuel i, ∀ m ∈ varScanAux text fuel i,
      m.raw = sliceL text m.start m.stop ∧ m.start < m.stop := by
  intro fuel
  induction fuel with
  | zero => intro i m hm; simp [varScanAux] at hm
  | succ n ih =>
    intro i m hm
    unfold varScanAux at hm
    split at hm
    · split at hm
      next len heq =>
        rcases List.mem_cons.mp hm with rfl | hm2
        · refine ⟨rfl, ?_⟩
          have := matchVarAt_pos text i len heq
          simp only
          omega
        · exact ih _ m hm2
      next heq => exact ih _ m hm
    · simp at hm

/-- Every match emitted by the number scanner carries its own slice of the
text as raw value and a strictly positive span. -/
lemma numScanAux_wf (text : Str) :
    ∀ fuel i, ∀ m ∈ numScanAux text fuel i,
      m.raw = sliceL text m.start m.stop ∧ m.start < m.stop := by
  intro fuel
  induction fuel with
  | zero => intro i m hm; simp [numScanAux] at hm
  | succ n ih =>
    intro i m hm
    unfold numScanAux at hm
    split at hm
    · split at hm
      next len heq =>
        rcases List.mem_cons.mp hm with rfl | hm2
        · refine ⟨rfl, ?_⟩
          have := matchNumAt_pos text i len heq
          simp only
          omega
        · exact ih _ m hm2
      next heq => exact ih _ m hm
    · simp at hm

/-- The merge of two singletons is ordered by start offset. -/
lemma mergeByStart_pair (x y : DynamicFragmentMatch) :
    mergeByStart [x] [y] = if x.start ≤ y.start then [x, y] else [y, x] := by
  by_cases h : x.start ≤ y.start <;>
    simp [mergeByStart, mergeByStartAux, h]

/-- Dropping the head of a placeholder-free string keeps it
placeholder-free. -/
lemma hasBrace_tail (c : Char) (t : Str) (h : hasBrace (c :: t) = false) :
    hasBrace t = false := by
  cases t with
  | nil => rfl
  | cons d t2 =>
    simp only [hasBrace, Bool.or_eq_false_iff] at h
    exact h.2

/-- A prefix of a placeholder-free string is placeholder-free. -/
lemma hasBrace_take (l : Str) :
    ∀ k, hasBrace l = false → hasBrace (l.take k) = false := by
  induction l with
  | nil => intro k _; simp [List.take_nil]; rfl
  | cons a l1 ih =>
    intro k h
    cases k with
    | zero => rfl
    | succ k1 =>
      cases l1 with
      | nil => cases k1 <;> rfl
      | cons b l2 =>
        cases k1 with
        | zero => rfl
        | succ k2 =>
          simp only [hasBrace, Bool.or_eq_false_iff] at h
          obtain ⟨hab, hrest⟩ := h
          show hasBrace (a :: b :: List.take k2 l2) = false
          simp only [hasBrace, Bool.or_eq_false_iff]
          refine ⟨hab, ?_⟩
          have hbt : b :: List.take k2 l2 = List.take (k2 + 1) (b :: l2) := rfl
          rw [hbt]
          exact ih (k2 + 1) hrest

/-- Dropping the head of an escape-free string keeps it escape-free. -/
lemma hasDollarEscape_tail (c : Char) (t : Str) (h : hasDollarEscape (c :: t) = false) :
    hasDollarEscape t = false := by
  cases t with
  | nil => rfl
  | cons d t2 =>
    simp only [hasDollarEscape, Bool.or_eq_false_iff] at h
    exact h.2

/-- GetSubstitution on a replacement free of dollar escape pairs is the
identity. -/
lemma getSubstitution_escape_free (matched before after : Str) :
    ∀ (n : Nat) (r : Str), r.length ≤ n → hasDollarEscape r = false →
      getSubstitution matched before after r = r := by
  intro n
  induction n with
  | zero =>
    intro r hlen _
    have : r = [] := List.length_eq_zero.mp (Nat.le_zero.mp hlen)
    subst this
    rfl
  | succ n ih =>
    intro r hlen hesc
    cases r with
    | nil => rfl
    | cons c rest =>
      by_cases hc : c = '$'
      · subst hc
        cases rest with
        | nil => rfl
        | cons d rest2 =>
          simp only [hasDollarEscape, Bool.or_eq_false_iff] at hesc
          obtain ⟨hpair, htail⟩ := hesc
          simp only [decide_True, Bool.true_and, Bool.or_eq_false_iff,
            decide_eq_false_iff_not] at hpair
          have hlen2 : (d :: rest2).length ≤ n := by
            simp only [List.length_cons] at hlen ⊢
            omega
          unfold getSubstitution
          rw [if_pos rfl]
          dsimp only []
          rw [if_neg hpair.1.1.1, if_neg hpair.1.1.2, if_neg hpair.1.2,
            if_neg hpair.2]
          rw [ih (d :: rest2) hlen2 htail]
      · have htail : hasDollarEscape rest = false := hasDollarEscape_tail c rest hesc
        have hlen2 : rest.length ≤ n := by
          simp only [List.length_cons] at hlen
          omega
        unfold getSubstitution
        rw [if_neg hc, ih rest hlen2 htail]

/-- The first placeholder occurrence in a string whose prefix before the
placeholder is placeholder-free sits exactly at the end of that prefix. -/
lemma findSubIdx_boundary (b : Str) :
    ∀ (a : Str) (i : Nat), hasBrace a = false →
      findSubIdx placeholderTok (a ++ '{' :: '}' :: b) i = some (i + a.length) := by
  intro a
  induction a with
  | nil =>
    intro i _
    show findSubIdx placeholderTok ('{' :: '}' :: b) i = some (i + 0)
    unfold findSubIdx
    rw [if_pos (by simp [placeholderTok, List.isPrefixOf])]
    simp
  | cons c a1 ih =>
    intro i h
    show findSubIdx placeholderTok (c :: (a1 ++ '{' :: '}' :: b)) i = _
    unfold findSubIdx
    rw [if_neg ?hneg]
    case hneg =>
      cases a1 with
      | nil =>
        simp [placeholderTok, List.isPrefixOf]
      | cons d a2 =>
        simp only [hasBrace, Bool.or_eq_false_iff, Bool.and_eq_false_iff,
          decide_eq_false_iff_not] at h
        simp only [placeholderTok, List.cons_append, List.isPrefixOf,
          Bool.and_eq_true, beq_iff_eq]
        intro hcon
        rcases h.1 with h1 | h1
        · exact h1 hcon.1.symm
        · exact h1 hcon.2.1.symm
    rw [ih (i + 1) (hasBrace_tail c a1 h)]
    congr 1
    simp only [List.length_cons]
    omega

/-- Replacing the first placeholder occurrence in a string whose prefix
before the placeholder is placeholder-free, with an escape-free
replacement, substitutes the replacement exactly there. -/
lemma replaceFirst_boundary (a b r : Str) (ha : hasBrace a = false)
    (hr : hasDollarEscape r = false) :
    replaceFirst (a ++ '{' :: '}' :: b) placeholderTok r = a ++ r ++ b := by
  unfold replaceFirst
  rw [findSubIdx_boundary b a 0 ha, Nat.zero_add]
  have hbefore : (a ++ '{' :: '}' :: b).take a.length = a := by
    rw [List.take_left]
  have hafter : (a ++ '{' :: '}' :: b).drop (a.length + placeholderTok.length) = b := by
    have hsplit : a ++ '{' :: '}' :: b = (a ++ placeholderTok) ++ b := by
      simp [placeholderTok]
    have hlen : a.length + placeholderTok.length = (a ++ placeholderTok).length := by
      simp
    rw [hsplit, hlen, List.drop_left]
  dsimp only []
  rw [hbefore, hafter,
    getSubstitution_escape_free placeholderTok a b r.length r (Nat.le_refl _) hr]

/-- Appending the slice from i to j to the first i characters yields the
first j characters. -/
lemma take_append_slice (l : Str) (i j : Nat) (h : i ≤ j) :
    l.take i ++ sliceL l i j = l.take j := by
  rw [sliceL, ← List.take_add]
  congr 1
  omega

/-- The two-match round trip: a normalized key built from two ordered
disjoint matches whose raw values are their own slices, over a text free of
the placeholder token and with escape-free raw values, is reconstructed to
the original text by the raw resolver. -/
lemma roundtrip_two (text : Str) (m1 m2 : DynamicFragmentMatch)
    (h1raw : m1.raw = sliceL text m1.start m1.stop)
    (h2raw : m2.raw = sliceL text m2.start m2.stop)
    (h1se : m1.start ≤ m1.stop) (h2se : m2.start ≤ m2.stop)
    (hord : m1.stop ≤ m2.start)
    (hnb : hasBrace text = false)
    (hd1 : hasDollarEscape m1.raw = false)
    (hd2 : hasDollarEscape m2.raw = false) :
    reconstructText (buildNormalized text 0 [m1, m2])
      (some [toFragment m1, toFragment m2]) (fun raw _ => some raw) = text := by
  have hrep : ∀ m : DynamicFragmentMatch,
      (match toFragment m with
        | .variableFragment raw name => ((fun raw (_ : Option Str) => some raw) raw name).getD raw
        | .numberFragment raw => raw) = m.raw := by
    intro m
    cases hm : m.kind <;> simp [toFragment, hm]
  have hB : buildNormalized text 0 [m1, m2] =
      text.take m1.start ++ '{' :: '}' ::
        (sliceL text m1.stop m2.start ++ '{' :: '}' :: text.drop m2.stop) := by
    show sliceL text 0 m1.start ++ placeholderTok ++
        (sliceL text m1.stop m2.start ++ placeholderTok ++ sliceFrom text m2.stop) = _
    simp [sliceL, sliceFrom, placeholderTok]
  have hstep1 : replaceFirst (buildNormalized text 0 [m1, m2]) placeholderTok m1.raw =
      text.take m1.start ++ m1.raw ++
        (sliceL text m1.stop m2.start ++ '{' :: '}' :: text.drop m2.stop) := by
    rw [hB, replaceFirst_boundary _ _ _ (hasBrace_take text m1.start hnb) hd1]
  have hpre : text.take m1.start ++ (m1.raw ++ sliceL text m1.stop m2.start) =
      text.take m2.start := by
    rw [h1raw, ← List.append_assoc, take_append_slice text m1.start m1.stop h1se,
      take_append_slice text m1.stop m2.start hord]
  have hstep1b : replaceFirst (buildNormalized text 0 [m1, m2]) placeholderTok m1.raw =
      text.take m2.start ++ '{' :: '}' :: text.drop m2.stop := by
    rw [hstep1, ← hpre]
    simp [List.append_assoc]
  have hstep2 : replaceFirst (text.take m2.start ++ '{' :: '}' :: text.drop m2.stop)
      placeholderTok m2.raw = text.take m2.start ++ m2.raw ++ text.drop m2.stop :=
    replaceFirst_boundary _ _ _ (hasBrace_take text m2.start hnb) hd2
  have hfinal : text.take m2.start ++ m2.raw ++ text.drop m2.stop = text := by
    rw [h2raw, List.append_assoc, ← List.append_assoc,
      take_append_slice text m2.start m2.stop h2se, List.take_append_drop]
  have hrt : reconstructText (buildNormalized text 0 [m1, m2])
      (some [toFragment m1, toFragment m2]) (fun raw _ => some raw) =
      replaceFirst
        (replaceFirst (buildNormalized text 0 [m1, m2]) placeholderTok m1.raw)
        placeholderTok m2.raw := by
    unfold reconstructText
    dsimp only []
    rw [if_neg (by simp)]
    simp only [List.foldl]
    rw [hrep m1, hrep m2]
  rw [hrt, hstep1b, hstep2, hfinal]

/-- C3 counterexample: each of these two source texts contains exactly one
variable placeholder and exactly one numeric literal, yet normalize
followed by reconstruct with the raw-value resolver does not return the
original text.  The first text contains the literal placeholder token, so
the first-occurrence replace of reconstruction hits that literal occurrence
first; the second contains a dollar-dollar escape inside the placeholder,
which GetSubstitution collapses to a single dollar when the raw text is
substituted back. -/
theorem roundtrip_fails_on_placeholder_literal :
    (let text : Str := ['{', '}', ' ', '$', '{', 'n', '}', ' ', '5']
     (varMatches text).length = 1 ∧
     (numMatches text).length = 1 ∧
     reconstructText (normalizeText text).normalized
       (some (normalizeText text).fragments) (fun raw _ => some raw) ≠ text) ∧
    (let text : Str := ['$', '{', 'a', '$', '$', 'b', '}', ' ', '5']
     (varMatches text).length = 1 ∧
     (numMatches text).length = 1 ∧
     hasBrace text = false ∧
     reconstructText (normalizeText text).normalized
       (some (normalizeText text).fragments) (fun raw _ => some raw) ≠ text) := by
  decide

/-- C3 amended: for a text in which the scanners find exactly one variable
placeholder and exactly one numeric literal, whose spans do not overlap,
which does not contain the placeholder token as a substring, and whose two
matched raw texts contain no dollar escape pair recognized by
GetSubstitution, normalize followed by reconstruct with the raw-value
resolver returns the original text. -/
theorem normalize_reconstruct_roundtrip (text : Str) (mv mn : DynamicFragmentMatch)
    (hv : varMatches text = [mv]) (hn : numMatches text = [mn])
    (hdisj : mv.stop ≤ mn.start ∨ mn.stop ≤ mv.start)
    (hnb : hasBrace text = false)
    (hev : hasDollarEscape mv.raw = false)
    (hen : hasDollarEscape mn.raw = false) :
    reconstructText (normalizeText text).normalized
      (some (normalizeText text).fragments) (fun raw _ => some raw) = text := by
  have hmv : mv.raw = sliceL text mv.start mv.stop ∧ mv.start < mv.stop := by
    refine varScanAux_wf text (text.length + 1) 0 mv ?_
    rw [show varScanAux text (text.length + 1) 0 = varMatches text from rfl, hv]
    exact List.mem_singleton.mpr rfl
  have hmn : mn.raw = sliceL text mn.start mn.stop ∧ mn.start < mn.stop := by
    refine numScanAux_wf text (text.length + 1) 0 mn ?_
    rw [show numScanAux text (text.length + 1) 0 = numMatches text from rfl, hn]
    exact List.mem_singleton.mpr rfl
  have hcol : collectDynamicMatches text = mergeByStart [mv] [mn] := by
    rw [collectDynamicMatches, hv, hn]
  rw [mergeByStart_pair] at hcol
  rcases hdisj with hord | hord
  · have hle : mv.start ≤ mn.start := le_trans (le_of_lt hmv.2) hord
    rw [if_pos hle] at hcol
    have h1 : (normalizeText text).normalized = buildNormalized text 0 [mv, mn] := by
      unfold normalizeText
      rw [hcol]
      rfl
    have h2 : (normalizeText text).fragments = [toFragment mv, toFragment mn] := by
      unfold normalizeText
      rw [hcol]
      rfl
    rw [h1, h2]
    exact roundtrip_two text mv mn hmv.1 hmn.1 (le_of_lt hmv.2) (le_of_lt hmn.2)
      hord hnb hev hen
  · have hgt : ¬mv.start ≤ mn.start := by
      have := hmn.2
      omega
    rw [if_neg hgt] at hcol
    have h1 : (normalizeText text).normalized = buildNormalized text 0 [mn, mv] := by
      unfold normalizeText
      rw [hcol]
      rfl
    have h2 : (normalizeText text).fragments = [toFragment mn, toFragment mv] := by
      unfold normalizeText
      rw [hcol]
      rfl
    rw [h1, h2]
    exact roundtrip_two text mn mv hmn.1 hmv.1 (le_of_lt hmn.2) (le_of_lt hmv.2)
      hord hnb hen hev

/-- Witness for the amended C3 on a concrete text with one variable
placeholder, one numeric literal, disjoint spans, no literal placeholder
token and no dollar escape pair in the raw texts. -/
theorem normalize_reconstruct_roundtrip_witness :
    reconstructText
      (normalizeText ['$', '{', 'n', '}', ' ', 'h', 'a', 's', ' ', '5']).normalized
      (some (normalizeText ['$', '{', 'n', '}', ' ', 'h', 'a', 's', ' ', '5']).fragments)
      (fun raw _ => some raw) = ['$', '{', 'n', '}', ' ', 'h', 'a', 's', ' ', '5'] :=
  normalize_reconstruct_roundtrip ['$', '{', 'n', '}', ' ', 'h', 'a', 's', ' ', '5']
    ⟨.variableK, ['$', '{', 'n', '}'], some ['n'], 0, 4⟩
    ⟨.numberK, ['5'], none, 9, 10⟩
    (by decide) (by decide) (Or.inl (by decide)) (by decide) (by decide) (by decide)

end Transmut
